import Mathlib

/-!
Verification of the tof-virt repository: a software-I2C VL53L0X
time-of-flight sensor emulator (responder) and a bit-banged controller.

The Lean definitions below are shallow embeddings translated from the C
sources:
  - namespace Emu     : src/vl53l0x_emu.c (register file, measurement
    lifecycle, and the register-level effect of the responder protocol
    state machine in i2c_slave_loop, modelled at transaction granularity);
  - namespace SoftI2C : src/i2c-ping/soft_i2c.c and the soft_i2c variant in
    src/unnamed/part_002 (controller framed transfers, acknowledgement
    sampling, GPIO line operations).

C machine integers are modelled as Nat with explicit `% 256` where the
source relies on uint8_t wraparound, and as Int where the source uses
signed int. Timestamps (unsigned long milliseconds from gettimeofday)
are modelled as Nat milliseconds from a monotone clock.
-/

namespace Emu

/-- Pointwise update of a register file, modelling `registers[i] = v`. -/
def upd (f : Nat → Nat) (i v : Nat) : Nat → Nat :=
  fun j => if j = i then v else f j

/-- Device states from vl53l0x_emu.c (STATE_IDLE .. STATE_REGISTER_READ).
The source uses one variable `device_state` both for the measurement
lifecycle and for protocol progress. -/
def STATE_IDLE : Nat := 0
def STATE_MEASURING : Nat := 1
def STATE_ADDR_MATCHED : Nat := 2
def STATE_REG_SELECTED : Nat := 3

/-- Register indices named in vl53l0x_emu.c. -/
def REG_SYSRANGE_START : Nat := 0x00
def REG_RESULT_INTERRUPT_STATUS : Nat := 0x13
def REG_RESULT_RANGE_STATUS : Nat := 0x14

/-- Global mutable state of the emulator process (vl53l0x_emu.c globals
`registers`, `device_state`, `current_register`, `measurement_in_progress`,
`measurement_start_time`, `current_distance`). -/
structure State where
  registers : Nat → Nat
  device_state : Nat
  current_register : Nat
  measurement_in_progress : Bool
  measurement_start_time : Nat
  current_distance : Nat

/-- Translation of init_registers (vl53l0x_emu.c lines 111-127): memset to
zero, then the named defaults; the 16-bit distance is stored with the high
byte at 0x1E (= REG_RESULT_RANGE_STATUS + 10) and the low byte at 0x1F.
The C expressions `(d >> 8) & 0xFF` and `d & 0xFF` are written as
`d / 256 % 256` and `d % 256`. -/
def init_registers (d : Nat) : Nat → Nat :=
  upd (upd (upd (upd (upd (upd (upd (upd (upd (upd (upd (fun _ => 0)
    0xC0 0xEE) 0xC2 0x10) 0x89 0x00) 0x0A 0x00) 0x84 0x01) 0x0B 0x00)
    0x13 0x00) 0x00 0x00) 0x14 0x00) 0x1E (d / 256 % 256)) 0x1F (d % 256)

/-- Process state right after main calls init_registers: default distance
1000 mm, measurement idle, register pointer 0. -/
def initialState : State :=
  { registers := init_registers 1000
    device_state := STATE_IDLE
    current_register := 0
    measurement_in_progress := false
    measurement_start_time := 0
    current_distance := 1000 }

/-- Translation of start_measurement (lines 154-162): set device_state to
MEASURING, raise measurement_in_progress, record the timestamp `t`, clear
register 0x00 (auto-clear of the start strobe) and register 0x13. -/
def start_measurement (t : Nat) (s : State) : State :=
  { s with
    device_state := STATE_MEASURING
    measurement_in_progress := true
    measurement_start_time := t
    registers := upd (upd s.registers REG_SYSRANGE_START 0x00)
      REG_RESULT_INTERRUPT_STATUS 0x00 }

/-- Translation of update_distance (lines 164-172): `change = rand() % 101
- 50` is a step in [-50, +50] driven by the random draw `r`; the sum is
clamped into [100, 2000]. The C locals are signed int, modelled as Int. -/
def update_distance (r : Nat) (s : State) : State :=
  let change : Int := (r % 101 : Nat) - 50
  let new_distance : Int := (s.current_distance : Int) + change
  let clamped : Int :=
    if new_distance < 100 then 100
    else if new_distance > 2000 then 2000
    else new_distance
  { s with current_distance := clamped.toNat }

/-- Translation of check_measurement (lines 129-152), the background tick
run on every iteration of i2c_slave_loop: if a measurement is in progress
and at least 75 ms have elapsed at current time `t`, store the current
distance big-endian at 0x1E/0x1F, set 0x13 to 0x07, drop
measurement_in_progress, set device_state to IDLE, and draw the next
distance with random draw `r`. -/
def check_measurement (t r : Nat) (s : State) : State :=
  if s.measurement_in_progress then
    if 75 ≤ t - s.measurement_start_time then
      update_distance r
        { s with
          registers := upd (upd (upd s.registers
              0x1E (s.current_distance / 256 % 256))
              0x1F (s.current_distance % 256))
            REG_RESULT_INTERRUPT_STATUS 0x07
          measurement_in_progress := false
          device_state := STATE_IDLE }
    else s
  else s

/-- Effect of one completed data byte inside a controller write transaction
(i2c_slave_loop, case I2C_DATA_BITS, lines 295-318): if the selected
register is 0x00 and the byte is exactly 0x01, start a measurement when
device_state is IDLE or REG_SELECTED (and store nothing); otherwise store
the byte at the selected register. In both cases the uint8_t register
pointer then auto-increments, wrapping at 256. -/
def handle_write_byte (t b : Nat) (s : State) : State :=
  let s1 :=
    if s.current_register = REG_SYSRANGE_START ∧ b = 0x01 then
      if s.device_state = STATE_IDLE ∨ s.device_state = STATE_REG_SELECTED then
        start_measurement t s
      else s
    else { s with registers := upd s.registers s.current_register b }
  { s1 with current_register := (s1.current_register + 1) % 256 }

/-- Effect of one byte sent to the controller inside a read transaction
(i2c_slave_loop, case I2C_REGISTER_READ, lines 320-347): the byte placed on
the wire is registers[current_register]; afterwards, if that register is
0x13 and it holds 0x07, it self-clears to 0x00; the pointer then
auto-increments mod 256. Returns the new state and the byte sent. -/
def handle_read_byte (s : State) : State × Nat :=
  let v := s.registers s.current_register
  let s1 :=
    if s.current_register = REG_RESULT_INTERRUPT_STATUS ∧
        s.registers REG_RESULT_INTERRUPT_STATUS = 0x07 then
      { s with registers := upd s.registers REG_RESULT_INTERRUPT_STATUS 0x00 }
    else s
  ({ s1 with current_register := (s1.current_register + 1) % 256 }, v)

/-- A controller write transaction addressed to the device, at time `t`:
the address match sets device_state to ADDR_MATCHED (I2C_ADDR_BITS), the
register byte `r` is shifted into the uint8_t pointer and device_state
becomes REG_SELECTED (I2C_REG_BITS), then each data byte is processed by
handle_write_byte. -/
def write_transaction (t r : Nat) (bytes : List Nat) (s : State) : State :=
  let s1 := { s with device_state := STATE_ADDR_MATCHED }
  let s2 := { s1 with current_register := r % 256,
                      device_state := STATE_REG_SELECTED }
  bytes.foldl (fun st b => handle_write_byte t b st) s2

/-- Reads `n` bytes back-to-back in a read transaction, collecting the
bytes sent on the wire in order. -/
def read_bytes : Nat → State → State × List Nat
  | 0, s => (s, [])
  | n + 1, s =>
    let p := handle_read_byte s
    let q := read_bytes n p.1
    (q.1, p.2 :: q.2)

/-- A controller read transaction of `n` bytes addressed to the device: the
address match sets device_state to ADDR_MATCHED, then bytes stream from the
register pointer left by the previous write (pointer carry-over). -/
def read_transaction (n : Nat) (s : State) : State × List Nat :=
  read_bytes n { s with device_state := STATE_ADDR_MATCHED }

/-- The controller-visible composite "read one byte of register i": a
pointer-setting write of i followed by a one-byte read transaction. -/
def read_register (t i : Nat) (s : State) : State × Nat :=
  let s1 := write_transaction t i [] s
  let q := read_transaction 1 s1
  (q.1, q.2.headI)

/-- Events seen by the emulator main loop: a background tick of
check_measurement at time `t` with random draw `r`, a controller write
transaction, or a controller read transaction. -/
inductive Ev where
  | check (t r : Nat)
  | write (t r : Nat) (bytes : List Nat)
  | read (n : Nat)

/-- One event step of the emulator. -/
def stepEv (s : State) (e : Ev) : State :=
  match e with
  | .check t r => check_measurement t r s
  | .write t r bytes => write_transaction t r bytes s
  | .read n => (read_transaction n s).1

/-- Run a sequence of events from a state. -/
def runEvs (s : State) (es : List Ev) : State :=
  es.foldl stepEv s

/-- The register-write data loop of a write transaction, as a named
function of the remaining data bytes. -/
def write_fold (t : Nat) (bytes : List Nat) (s0 : State) : State :=
  bytes.foldl (fun st b => handle_write_byte t b st) s0

/-- One controller polling cycle of the interrupt-status register: the
background tick the responder loop runs on every iteration before serving
a transaction (check_measurement at time t with random draw r), followed
by the controller composite read of register 0x13. -/
def poll13 (t r : Nat) (s : State) : State × Nat :=
  read_register t 0x13 (check_measurement t r s)

/-- The 16-bit big-endian value stored at registers 0x1E/0x1F. -/
def dist16 (s : State) : Nat :=
  s.registers 0x1E * 256 + s.registers 0x1F

/-- An event never writes the register index j: true of ticks and reads
(which store nothing except the 0x13 self-clear), and of a write
transaction whose auto-incremented pointer window avoids j. -/
def avoidsReg (j : Nat) : Ev → Prop
  | .write _ r bytes => ∀ k, k < bytes.length → (r + k) % 256 ≠ j
  | _ => True

instance avoidsReg.instDecidable (j : Nat) :
    (e : Ev) → Decidable (avoidsReg j e)
  | .check _ _ => isTrue trivial
  | .write _ r bytes =>
    inferInstanceAs
      (Decidable (∀ k, k < bytes.length → (r + k) % 256 ≠ j))
  | .read _ => isTrue trivial

/-- The simulated distance stays inside [100, 2000] millimetres. -/
def distInv (s : State) : Prop :=
  100 ≤ s.current_distance ∧ s.current_distance ≤ 2000

end Emu

namespace SoftI2C

/-- Result of reading the acknowledgement slot once, as i2c_write_byte does
in src/i2c-ping/soft_i2c.c (lines 240-254): the single SDA sample during
the high phase of the ACK clock; a high sample is a NACK. Returns 0 on
ACK, -1 on NACK, as the C function does. -/
def i2c_write_byte_result (ackSample : Bool) : Int :=
  if ackSample then -1 else 0

/-- Translation of the data loop of i2c_master_write
(src/i2c-ping/soft_i2c.c lines 464-473 and the identical loop in
src/unnamed/part_002 lines 670-683): transmit each byte; on the first NACK
emit STOP and return -1; after the last byte emit STOP and return 0.
`acks k` is the sampled ACK-slot level for the k-th transmitted byte
(the address byte is byte 0, data byte i is byte i+1). -/
def masterWriteGo (acks : Nat → Bool) : Nat → List Nat → Int
  | _, [] => 0
  | k, _ :: rest =>
    if i2c_write_byte_result (acks k) ≠ 0 then -1
    else masterWriteGo acks (k + 1) rest

/-- Translation of i2c_master_write (src/i2c-ping/soft_i2c.c lines
453-474): START, address byte with write bit; on address NACK emit STOP
and return -1; otherwise send the data bytes with per-byte ACK polling. -/
def i2c_master_write (acks : Nat → Bool) (data : List Nat) : Int :=
  if i2c_write_byte_result (acks 0) ≠ 0 then -1
  else masterWriteGo acks 1 data

/-- Helper collecting the data bytes that reach the wire: a byte is
transmitted before its ACK slot is sampled, and transmission stops after
the first NACKed byte. -/
def masterWriteSentGo (acks : Nat → Bool) : Nat → List Nat → List Nat
  | _, [] => []
  | k, b :: rest =>
    b :: (if acks k then [] else masterWriteSentGo acks (k + 1) rest)

/-- The bytes i2c_master_write places on the wire, in order: the address
byte, then data bytes up to and including the first NACKed one. -/
def masterWriteSent (acks : Nat → Bool) (addr : Nat) (data : List Nat) :
    List Nat :=
  addr :: (if acks 0 then [] else masterWriteSentGo acks 1 data)

/-- One iteration of the ACK-sampling loop of master_read_ack
(src/unnamed/part_002 lines 194-202): the state is the pair (ack,
ack_found); when the ACK has not been found yet, sample the line at this
attempt; a low sample sets ack to 0 and stops further sampling. -/
def ack_attempt (line : Nat → Bool) (st : Int × Bool) (attempt : Nat) :
    Int × Bool :=
  if st.2 then st
  else
    let a : Int := if line attempt then 1 else 0
    (a, a == 0)

/-- Translation of master_read_ack (src/unnamed/part_002 lines 175-223):
`ack` starts at 1 (NACK); up to 10 attempts sample the SDA line; the loop
stops at the first low sample (ACK found); the final value of `ack` is
returned (0 exactly when some attempt sampled low). `line k` is the SDA
level at attempt k, true meaning high. -/
def master_read_ack (line : Nat → Bool) : Int :=
  ((List.range 10).foldl (ack_attempt line) ((1 : Int), false)).1

/-- The buffer indices written by the read loop of i2c_master_read
(src/i2c-ping/soft_i2c.c lines 489-492 and src/unnamed/part_002 lines
705-709), reached once the address byte is acknowledged:
`for (i = 0; i < length - 1; i++) buffer[i] = ...;` writes indices
0 .. length-2, then `buffer[length - 1] = ...` writes index length-1.
`length` and `i` are C ints, modelled as Int. -/
def i2c_master_read_stores (length : Int) : List Int :=
  (List.range (length - 1).toNat).map (Nat.cast : Nat → Int) ++
    [length - 1]

/-- The two bus lines. -/
inductive LineKind where
  | sda
  | scl
  deriving DecidableEq

/-- A GPIO line reconfiguration or output operation, the alphabet of the
line-driver layer: request as input (released, pulled high externally),
request as output initially driven to level `v`, or set an output line to
level `v`. -/
inductive GpioOp where
  | requestInput (line : LineKind)
  | requestOutput (line : LineKind) (v : Nat)
  | setValue (line : LineKind) (v : Nat)
  deriving DecidableEq

/-- An operation drives a line to an actively driven-high state exactly
when it configures or sets an output at a nonzero level. -/
def drivesHigh : GpioOp → Bool
  | .requestOutput _ 0 => false
  | .requestOutput _ _ => true
  | .setValue _ 0 => false
  | .setValue _ _ => true
  | _ => false

/-- set_input_pullup from vl53l0x_emu.c (lines 81-84): release, then
request as input with pull-up bias. -/
def set_input_pullup (l : LineKind) : GpioOp := .requestInput l

/-- set_output_low from vl53l0x_emu.c (lines 87-90): release, then request
as output driven to 0. -/
def set_output_low (l : LineKind) : GpioOp := .requestOutput l 0

/-- set_output_high from vl53l0x_emu.c (lines 93-96): release, then
request as output driven to 1. Defined in the source but never called from
i2c_slave_loop. -/
def set_output_high (l : LineKind) : GpioOp := .requestOutput l 1

/-- Every SDA reconfiguration issued by the responder loop i2c_slave_loop
of vl53l0x_emu.c, in source order: the STOP branch (line 250), the two
data-bit branches and the ACK release of I2C_REGISTER_READ (lines 325,
327, 333), and the ACK/NACK handling on falling edges (lines 358, 376,
387, 398). The loop never reconfigures SCL. -/
def emu_slave_loop_ops : List GpioOp :=
  [ set_input_pullup .sda,
    set_input_pullup .sda,
    set_output_low .sda,
    set_input_pullup .sda,
    set_output_low .sda,
    set_output_low .sda,
    set_output_low .sda,
    set_input_pullup .sda ]

/-- The line requests issued by i2c_init (src/i2c-ping/soft_i2c.c lines
72-83): both SDA and SCL are requested as push-pull outputs with initial
level 1, i.e. actively driven high. -/
def i2c_init_ops : List GpioOp :=
  [ .requestOutput .sda 1, .requestOutput .scl 1 ]

/-- The output operations of i2c_start (src/i2c-ping/soft_i2c.c lines
180-194): set SDA high, set SCL high, then SDA low, then SCL low. The
high levels are driven, not released. -/
def i2c_start_ops : List GpioOp :=
  [ .setValue .sda 1, .setValue .scl 1, .setValue .sda 0, .setValue .scl 0 ]

/-- The output operations of i2c_stop (src/i2c-ping/soft_i2c.c lines
198-211): SDA low, SCL low, SCL high, SDA high, the highs driven. -/
def i2c_stop_ops : List GpioOp :=
  [ .setValue .sda 0, .setValue .scl 0, .setValue .scl 1, .setValue .sda 1 ]

theorem masterWriteGo_cases (acks : Nat → Bool) :
    ∀ (data : List Nat) (k : Nat),
      masterWriteGo acks k data = 0 ∨ masterWriteGo acks k data = -1 := by
  intro data
  induction data with
  | nil => intro k; left; rfl
  | cons b rest ih =>
    intro k
    show (if i2c_write_byte_result (acks k) ≠ 0 then (-1 : Int)
        else masterWriteGo acks (k + 1) rest) = 0 ∨
      (if i2c_write_byte_result (acks k) ≠ 0 then (-1 : Int)
        else masterWriteGo acks (k + 1) rest) = -1
    split
    · right; rfl
    · exact ih (k + 1)

theorem masterWriteGo_eq_zero (acks : Nat → Bool) :
    ∀ (data : List Nat) (k : Nat),
      masterWriteGo acks k data = 0 ↔
        ∀ i, i < data.length → acks (k + i) = false := by
  intro data
  induction data with
  | nil =>
    intro k
    constructor
    · intro _ i hi; exact absurd hi (Nat.not_lt_zero i)
    · intro _; rfl
  | cons b rest ih =>
    intro k
    show (if i2c_write_byte_result (acks k) ≠ 0 then -1
        else masterWriteGo acks (k + 1) rest) = 0 ↔ _
    by_cases h : acks k
    · rw [if_pos (by simp [i2c_write_byte_result, h])]
      constructor
      · intro h0; exact absurd h0 (by norm_num)
      · intro hall
        have h1 := hall 0 (by simp)
        rw [Nat.add_zero, h] at h1
        exact absurd h1 (by simp)
    · rw [if_neg (by simp [i2c_write_byte_result, h])]
      rw [ih (k + 1)]
      constructor
      · intro hall i hi
        cases i with
        | zero =>
          rw [Nat.add_zero]
          simpa using h
        | succ i2 =>
          have h2 := hall i2 (by simp only [List.length_cons] at hi; omega)
          rw [show k + 1 + i2 = k + (i2 + 1) by omega] at h2
          exact h2
      · intro hall i hi
        have h2 := hall (i + 1) (by simp only [List.length_cons]; omega)
        rw [show k + (i + 1) = k + 1 + i by omega] at h2
        exact h2

theorem masterWriteSentGo_take (acks : Nat → Bool) :
    ∀ (data : List Nat) (k : Nat),
      ∃ m, masterWriteSentGo acks k data = data.take m := by
  intro data
  induction data with
  | nil => intro k; exact ⟨0, rfl⟩
  | cons b rest ih =>
    intro k
    show ∃ m,
      (b :: (if acks k then [] else masterWriteSentGo acks (k + 1) rest))
        = (b :: rest).take m
    by_cases h : acks k
    · exact ⟨1, by simp [h]⟩
    · obtain ⟨m, hm⟩ := ih (k + 1)
      exact ⟨m + 1, by simp [h, hm]⟩

theorem i2c_master_write_cases (acks : Nat → Bool) (data : List Nat) :
    i2c_master_write acks data = 0 ∨ i2c_master_write acks data = -1 := by
  unfold i2c_master_write
  split
  · right; rfl
  · exact masterWriteGo_cases acks data 1

theorem i2c_master_write_eq_zero (acks : Nat → Bool) (data : List Nat) :
    i2c_master_write acks data = 0 ↔
      (acks 0 = false ∧ ∀ i, i < data.length → acks (i + 1) = false) := by
  unfold i2c_master_write
  by_cases h : acks 0
  · rw [if_pos (by simp [i2c_write_byte_result, h])]
    constructor
    · intro h0; exact absurd h0 (by norm_num)
    · intro hall; rw [h] at hall; exact absurd hall.1 (by simp)
  · rw [if_neg (by simp [i2c_write_byte_result, h])]
    rw [masterWriteGo_eq_zero]
    constructor
    · intro hall
      refine ⟨by simpa using h, fun i hi => ?_⟩
      have h2 := hall i hi
      rw [show 1 + i = i + 1 by omega] at h2
      exact h2
    · intro hall i hi
      have h2 := hall.2 i hi
      rw [show 1 + i = i + 1 by omega]
      exact h2

theorem masterWriteSent_take (acks : Nat → Bool) (addr : Nat)
    (data : List Nat) :
    ∃ m, masterWriteSent acks addr data = (addr :: data).take (m + 1) := by
  unfold masterWriteSent
  by_cases h : acks 0
  · exact ⟨0, by simp [h]⟩
  · obtain ⟨m, hm⟩ := masterWriteSentGo_take acks data 1
    exact ⟨m, by simp [h, hm]⟩

theorem ack_attempt_found (line : Nat → Bool) :
    ∀ (L : List Nat) (a : Int),
      L.foldl (ack_attempt line) (a, true) = (a, true) := by
  intro L
  induction L with
  | nil => intro a; rfl
  | cons k rest ih =>
    intro a
    show rest.foldl (ack_attempt line) (ack_attempt line (a, true) k) = _
    rw [show ack_attempt line (a, true) k = (a, true) from rfl]
    exact ih a

theorem ack_attempt_all_high (line : Nat → Bool) :
    ∀ L : List Nat, (∀ k ∈ L, line k = true) →
      L.foldl (ack_attempt line) ((1 : Int), false) = (1, false) := by
  intro L
  induction L with
  | nil => intro _; rfl
  | cons k rest ih =>
    intro hall
    show rest.foldl (ack_attempt line) (ack_attempt line (1, false) k) = _
    have hk : line k = true := hall k (List.mem_cons_self k rest)
    rw [show ack_attempt line (1, false) k = (1, false) by
      unfold ack_attempt; simp [hk]]
    exact ih (fun k2 h2 => hall k2 (List.mem_cons_of_mem k h2))

theorem master_read_ack_const (line : Nat → Bool) (b : Bool)
    (h : ∀ k, k < 10 → line k = b) :
    master_read_ack line = if b then 1 else 0 := by
  cases b with
  | false =>
    have h0 : line 0 = false := h 0 (by norm_num)
    unfold master_read_ack
    rw [show List.range 10 = 0 :: [1, 2, 3, 4, 5, 6, 7, 8, 9] from rfl]
    rw [List.foldl_cons]
    rw [show ack_attempt line (1, false) 0 = (0, true) by
      unfold ack_attempt; simp [h0]]
    rw [ack_attempt_found]
    rfl
  | true =>
    unfold master_read_ack
    rw [ack_attempt_all_high line (List.range 10)
      (fun k hk => h k (List.mem_range.mp hk))]
    rfl

end SoftI2C

namespace Emu

@[simp]
theorem upd_apply (f : Nat → Nat) (i v j : Nat) :
    upd f i v j = if j = i then v else f j := rfl

theorem check_measurement_not_elapsed (t r : Nat) (s : State)
    (h : t - s.measurement_start_time < 75) :
    check_measurement t r s = s := by
  unfold check_measurement
  rcases hm : s.measurement_in_progress with _ | _
  · simp [hm]
  · simp [hm, Nat.not_le.mpr h]

theorem check_measurement_idle (t r : Nat) (s : State)
    (h : s.measurement_in_progress = false) :
    check_measurement t r s = s := by
  unfold check_measurement
  simp [h]

theorem check_measurement_complete_regs (t r : Nat) (s : State) (j : Nat)
    (hm : s.measurement_in_progress = true)
    (he : 75 ≤ t - s.measurement_start_time) :
    (check_measurement t r s).registers j =
      if j = 0x13 then 0x07
      else if j = 0x1F then s.current_distance % 256
      else if j = 0x1E then s.current_distance / 256 % 256
      else s.registers j := by
  unfold check_measurement update_distance
  simp [hm, he, REG_RESULT_INTERRUPT_STATUS, upd]

theorem check_measurement_complete_flag (t r : Nat) (s : State)
    (hm : s.measurement_in_progress = true)
    (he : 75 ≤ t - s.measurement_start_time) :
    (check_measurement t r s).measurement_in_progress = false := by
  unfold check_measurement update_distance
  simp [hm, he]

theorem update_distance_registers (r : Nat) (s : State) :
    (update_distance r s).registers = s.registers := rfl

theorem update_distance_eq (r : Nat) (s : State) :
    ((update_distance r s).current_distance : Int) =
      max 100 (min 2000
        ((s.current_distance : Int) + ((r % 101 : Nat) - 50))) := by
  simp only [update_distance]
  split
  · rename_i h
    rw [Int.max_def, Int.min_def]
    split <;> split <;> omega
  · rw [Int.max_def, Int.min_def]
    split
    · split <;> split <;> omega
    · split <;> split <;> omega

theorem update_distance_bounds (r : Nat) (s : State) :
    100 ≤ (update_distance r s).current_distance ∧
      (update_distance r s).current_distance ≤ 2000 := by
  have h := update_distance_eq r s
  omega

theorem check_measurement_complete_distance (t r : Nat) (s : State)
    (hm : s.measurement_in_progress = true)
    (he : 75 ≤ t - s.measurement_start_time) :
    ((check_measurement t r s).current_distance : Int) =
      max 100 (min 2000
        ((s.current_distance : Int) + ((r % 101 : Nat) - 50))) := by
  unfold check_measurement
  simp only [hm, he, if_true, ite_true]
  rw [update_distance_eq]

theorem check_measurement_distance_bounds (t r : Nat) (s : State) :
    (check_measurement t r s).current_distance = s.current_distance ∨
      (100 ≤ (check_measurement t r s).current_distance ∧
        (check_measurement t r s).current_distance ≤ 2000) := by
  unfold check_measurement
  split
  · split
    · right; exact update_distance_bounds r _
    · left; rfl
  · left; rfl

theorem handle_write_byte_pointer (t b : Nat) (s : State) :
    (handle_write_byte t b s).current_register =
      (s.current_register + 1) % 256 := by
  unfold handle_write_byte start_measurement
  split
  · split <;> rfl
  · rfl

theorem handle_write_byte_regs (t b : Nat) (s : State) (j : Nat)
    (hj0 : j ≠ 0x00) (hj13 : j ≠ 0x13)
    (hcur : s.current_register ≠ j) :
    (handle_write_byte t b s).registers j = s.registers j := by
  have hj : j ≠ s.current_register := Ne.symm hcur
  unfold handle_write_byte start_measurement
  split
  · split <;>
      simp [REG_SYSRANGE_START, REG_RESULT_INTERRUPT_STATUS, upd, hj0, hj13]
  · simp [upd, hj]

theorem handle_write_byte_flags (t b : Nat) (s : State) :
    ((handle_write_byte t b s).measurement_in_progress =
        s.measurement_in_progress ∧
      (handle_write_byte t b s).measurement_start_time =
        s.measurement_start_time) ∨
    ((handle_write_byte t b s).measurement_in_progress = true ∧
      (handle_write_byte t b s).measurement_start_time = t) := by
  unfold handle_write_byte start_measurement
  split
  · split
    · right; exact ⟨rfl, rfl⟩
    · left; exact ⟨rfl, rfl⟩
  · left; exact ⟨rfl, rfl⟩

theorem handle_write_byte_distance (t b : Nat) (s : State) :
    (handle_write_byte t b s).current_distance = s.current_distance := by
  unfold handle_write_byte start_measurement
  split
  · split <;> rfl
  · rfl

theorem write_fold_pointer (t : Nat) (bytes : List Nat) :
    ∀ s : State, s.current_register < 256 →
      (bytes.foldl (fun st b => handle_write_byte t b st) s).current_register
        = (s.current_register + bytes.length) % 256 := by
  induction bytes with
  | nil =>
    intro s hs
    simp [Nat.mod_eq_of_lt hs]
  | cons b rest ih =>
    intro s hs
    simp only [List.foldl_cons, List.length_cons]
    rw [ih _ (by rw [handle_write_byte_pointer]; omega),
      handle_write_byte_pointer, Nat.mod_add_mod]
    omega

theorem write_fold_regs (t : Nat) (bytes : List Nat) :
    ∀ (s : State) (j : Nat), s.current_register < 256 →
      j ≠ 0x00 → j ≠ 0x13 →
      (∀ k, k < bytes.length → (s.current_register + k) % 256 ≠ j) →
      (bytes.foldl (fun st b => handle_write_byte t b st) s).registers j
        = s.registers j := by
  induction bytes with
  | nil => intro s j _ _ _ _; rfl
  | cons b rest ih =>
    intro s j hs hj0 hj13 hav
    simp only [List.foldl_cons]
    have h0 : s.current_register ≠ j := by
      have := hav 0 (by simp)
      simpa [Nat.mod_eq_of_lt hs] using this
    have hstep : (handle_write_byte t b s).current_register < 256 := by
      rw [handle_write_byte_pointer]; omega
    have hav2 : ∀ k, k < rest.length →
        ((handle_write_byte t b s).current_register + k) % 256 ≠ j := by
      intro k hk
      rw [handle_write_byte_pointer, Nat.mod_add_mod]
      have := hav (k + 1) (by simp only [List.length_cons]; omega)
      omega
    rw [ih _ _ hstep hj0 hj13 hav2,
      handle_write_byte_regs t b s j hj0 hj13 h0]

theorem write_fold_distance (t : Nat) (bytes : List Nat) :
    ∀ s : State,
      (bytes.foldl (fun st b => handle_write_byte t b st) s).current_distance
        = s.current_distance := by
  induction bytes with
  | nil => intro s; rfl
  | cons b rest ih =>
    intro s
    simp only [List.foldl_cons]
    rw [ih, handle_write_byte_distance]

theorem write_transaction_pointer (t r : Nat) (bytes : List Nat)
    (s : State) :
    (write_transaction t r bytes s).current_register
      = (r + bytes.length) % 256 := by
  unfold write_transaction
  rw [write_fold_pointer t bytes _ (by simp [Nat.mod_lt])]
  simp [Nat.mod_add_mod]

theorem write_transaction_regs (t r : Nat) (bytes : List Nat) (s : State)
    (j : Nat) (hj0 : j ≠ 0x00) (hj13 : j ≠ 0x13)
    (hav : ∀ k, k < bytes.length → (r + k) % 256 ≠ j) :
    (write_transaction t r bytes s).registers j = s.registers j := by
  unfold write_transaction
  rw [write_fold_regs t bytes _ j (by simp [Nat.mod_lt]) hj0 hj13 ?_]
  intro k hk
  rw [Nat.mod_add_mod]
  exact hav k hk

theorem write_transaction_distance (t r : Nat) (bytes : List Nat)
    (s : State) :
    (write_transaction t r bytes s).current_distance
      = s.current_distance := by
  unfold write_transaction
  rw [write_fold_distance]

theorem write_transaction_single_regs (t i v : Nat) (s : State)
    (h : ¬(i % 256 = 0x00 ∧ v = 0x01)) (j : Nat) :
    (write_transaction t i [v] s).registers j =
      upd s.registers (i % 256) v j := by
  unfold write_transaction
  simp only [List.foldl_cons, List.foldl_nil]
  unfold handle_write_byte
  rw [if_neg (by simpa [REG_SYSRANGE_START] using h)]

theorem handle_read_byte_val (s : State) :
    (handle_read_byte s).2 = s.registers s.current_register := rfl

theorem handle_read_byte_pointer (s : State) :
    (handle_read_byte s).1.current_register
      = (s.current_register + 1) % 256 := by
  unfold handle_read_byte
  split <;> rfl

theorem handle_read_byte_regs (s : State) (j : Nat)
    (hj : j ≠ s.current_register) :
    (handle_read_byte s).1.registers j = s.registers j := by
  unfold handle_read_byte
  split
  · rename_i h
    have hj13 : j ≠ REG_RESULT_INTERRUPT_STATUS := by rw [← h.1]; exact hj
    simp [upd, hj13]
  · rfl

theorem handle_read_byte_regs_13 (s : State) :
    (handle_read_byte s).1.registers REG_RESULT_INTERRUPT_STATUS =
      if s.current_register = REG_RESULT_INTERRUPT_STATUS ∧
          s.registers REG_RESULT_INTERRUPT_STATUS = 0x07 then 0x00
      else s.registers REG_RESULT_INTERRUPT_STATUS := by
  unfold handle_read_byte
  split
  · simp [upd]
  · rfl

theorem handle_read_byte_flags (s : State) :
    (handle_read_byte s).1.measurement_in_progress
        = s.measurement_in_progress ∧
      (handle_read_byte s).1.measurement_start_time
        = s.measurement_start_time ∧
      (handle_read_byte s).1.current_distance = s.current_distance := by
  unfold handle_read_byte
  split <;> exact ⟨rfl, rfl, rfl⟩

theorem handle_read_byte_regs_ne13 (s : State) (j : Nat)
    (hj : j ≠ REG_RESULT_INTERRUPT_STATUS) :
    (handle_read_byte s).1.registers j = s.registers j := by
  unfold handle_read_byte
  split
  · simp [upd, hj]
  · rfl

theorem write_fold_flags (t : Nat) (bytes : List Nat) : ∀ s0 : State,
    ((write_fold t bytes s0).measurement_in_progress
          = s0.measurement_in_progress ∧
        (write_fold t bytes s0).measurement_start_time
          = s0.measurement_start_time) ∨
      ((write_fold t bytes s0).measurement_in_progress = true ∧
        (write_fold t bytes s0).measurement_start_time = t) := by
  induction bytes with
  | nil => intro s0; left; exact ⟨rfl, rfl⟩
  | cons b rest ih =>
    intro s0
    simp only [write_fold, List.foldl_cons]
    rcases ih (handle_write_byte t b s0) with h | h
    · rcases handle_write_byte_flags t b s0 with h2 | h2
      · left
        refine ⟨?_, ?_⟩
        · rw [show (List.foldl (fun st b => handle_write_byte t b st)
            (handle_write_byte t b s0) rest) = write_fold t rest
              (handle_write_byte t b s0) from rfl]
          rw [h.1, h2.1]
        · rw [show (List.foldl (fun st b => handle_write_byte t b st)
            (handle_write_byte t b s0) rest) = write_fold t rest
              (handle_write_byte t b s0) from rfl]
          rw [h.2, h2.2]
      · right
        refine ⟨?_, ?_⟩
        · rw [show (List.foldl (fun st b => handle_write_byte t b st)
            (handle_write_byte t b s0) rest) = write_fold t rest
              (handle_write_byte t b s0) from rfl]
          rw [h.1, h2.1]
        · rw [show (List.foldl (fun st b => handle_write_byte t b st)
            (handle_write_byte t b s0) rest) = write_fold t rest
              (handle_write_byte t b s0) from rfl]
          rw [h.2, h2.2]
    · right
      exact h

theorem write_transaction_flags (t r : Nat) (bytes : List Nat) (s : State) :
    ((write_transaction t r bytes s).measurement_in_progress
          = s.measurement_in_progress ∧
        (write_transaction t r bytes s).measurement_start_time
          = s.measurement_start_time) ∨
      ((write_transaction t r bytes s).measurement_in_progress = true ∧
        (write_transaction t r bytes s).measurement_start_time = t) := by
  unfold write_transaction
  exact write_fold_flags t bytes _

theorem write_start_components (t : Nat) (s : State) :
    (write_transaction t 0x00 [0x01] s).measurement_in_progress = true ∧
      (write_transaction t 0x00 [0x01] s).measurement_start_time = t ∧
      (write_transaction t 0x00 [0x01] s).registers 0x13 = 0x00 ∧
      (write_transaction t 0x00 [0x01] s).registers 0x00 = 0x00 ∧
      (write_transaction t 0x00 [0x01] s).device_state = STATE_MEASURING ∧
      (write_transaction t 0x00 [0x01] s).current_distance
        = s.current_distance := by
  unfold write_transaction handle_write_byte start_measurement
  simp [REG_SYSRANGE_START, REG_RESULT_INTERRUPT_STATUS, STATE_IDLE,
    STATE_REG_SELECTED, STATE_MEASURING, upd]

theorem read_register_unfold (t i : Nat) (s : State) :
    read_register t i s =
      ((handle_read_byte
          { s with
            device_state := STATE_ADDR_MATCHED
            current_register := i % 256 }).1,
        s.registers (i % 256)) := rfl

theorem read_register_val (t i : Nat) (s : State) :
    (read_register t i s).2 = s.registers (i % 256) := rfl

theorem read_register_regs_13 (t i : Nat) (s : State) :
    (read_register t i s).1.registers REG_RESULT_INTERRUPT_STATUS =
      if i % 256 = REG_RESULT_INTERRUPT_STATUS ∧
          s.registers REG_RESULT_INTERRUPT_STATUS = 0x07 then 0x00
      else s.registers REG_RESULT_INTERRUPT_STATUS := by
  rw [read_register_unfold]
  rw [handle_read_byte_regs_13]

theorem read_register_flags (t i : Nat) (s : State) :
    (read_register t i s).1.measurement_in_progress
        = s.measurement_in_progress ∧
      (read_register t i s).1.measurement_start_time
        = s.measurement_start_time ∧
      (read_register t i s).1.current_distance = s.current_distance := by
  rw [read_register_unfold]
  exact handle_read_byte_flags _

theorem read_bytes_flags (n : Nat) : ∀ s : State,
    (read_bytes n s).1.measurement_in_progress = s.measurement_in_progress ∧
      (read_bytes n s).1.measurement_start_time = s.measurement_start_time ∧
      (read_bytes n s).1.current_distance = s.current_distance := by
  induction n with
  | zero => intro s; exact ⟨rfl, rfl, rfl⟩
  | succ n ih =>
    intro s
    have h1 := handle_read_byte_flags s
    have h2 := ih (handle_read_byte s).1
    unfold read_bytes
    exact ⟨h2.1.trans h1.1, h2.2.1.trans h1.2.1, h2.2.2.trans h1.2.2⟩

theorem read_bytes_regs_ne13 (n : Nat) : ∀ (s : State) (j : Nat),
    j ≠ REG_RESULT_INTERRUPT_STATUS →
    (read_bytes n s).1.registers j = s.registers j := by
  induction n with
  | zero => intro s j _; rfl
  | succ n ih =>
    intro s j hj
    unfold read_bytes
    rw [ih _ j hj, handle_read_byte_regs_ne13 _ j hj]

theorem read_bytes_pointer_lt (n : Nat) : ∀ s : State,
    s.current_register < 256 →
    (read_bytes n s).1.current_register < 256 := by
  induction n with
  | zero => intro s hs; exact hs
  | succ n ih =>
    intro s hs
    unfold read_bytes
    exact ih _ (by rw [handle_read_byte_pointer]; omega)

theorem read_bytes_spec (n : Nat) : ∀ s : State,
    s.current_register < 256 → n ≤ 256 →
    (read_bytes n s).2 =
      (List.range n).map
        (fun k => s.registers ((s.current_register + k) % 256)) ∧
    (read_bytes n s).1.current_register
      = (s.current_register + n) % 256 := by
  induction n with
  | zero =>
    intro s hs _
    exact ⟨rfl, by simpa using (Nat.mod_eq_of_lt hs).symm⟩
  | succ n ih =>
    intro s hs hn
    have hp : (handle_read_byte s).1.current_register
        = (s.current_register + 1) % 256 := handle_read_byte_pointer s
    have hlt : (handle_read_byte s).1.current_register < 256 := by
      rw [hp]; omega
    obtain ⟨hout, hptr⟩ := ih (handle_read_byte s).1 hlt (by omega)
    constructor
    · unfold read_bytes
      show (handle_read_byte s).2 :: (read_bytes n (handle_read_byte s).1).2
        = _
      rw [hout, handle_read_byte_val]
      rw [List.range_succ_eq_map]
      simp only [List.map_cons, List.map_map]
      congr 1
      · rw [Nat.add_zero, Nat.mod_eq_of_lt hs]
      · apply List.map_congr_left
        intro k hk
        have hk' : k < n := List.mem_range.mp hk
        have h1 : k + 1 < 256 := by omega
        have hidx : ((handle_read_byte s).1.current_register + k) % 256
            = (s.current_register + (k + 1)) % 256 := by
          rw [hp, Nat.mod_add_mod]
          omega
        have hne : (s.current_register + (k + 1)) % 256
            ≠ s.current_register := by omega
        show (handle_read_byte s).1.registers
            (((handle_read_byte s).1.current_register + k) % 256)
          = s.registers ((s.current_register + (k + 1)) % 256)
        rw [hidx, handle_read_byte_regs s _ hne]
    · unfold read_bytes
      show (read_bytes n (handle_read_byte s).1).1.current_register = _
      rw [hptr, hp, Nat.mod_add_mod]
      omega

theorem stepEv_regs (s : State) (e : Ev) (j : Nat)
    (hj0 : j ≠ 0x00) (hj13 : j ≠ 0x13) (hj1E : j ≠ 0x1E) (hj1F : j ≠ 0x1F)
    (hav : avoidsReg j e) :
    (stepEv s e).registers j = s.registers j := by
  cases e with
  | check t r =>
    show (check_measurement t r s).registers j = s.registers j
    by_cases hm : s.measurement_in_progress = true
    · by_cases he : 75 ≤ t - s.measurement_start_time
      · rw [check_measurement_complete_regs t r s j hm he]
        simp [hj13, hj1E, hj1F]
      · rw [check_measurement_not_elapsed t r s (by omega)]
    · rw [check_measurement_idle t r s (by simpa using hm)]
  | write t r bytes =>
    exact write_transaction_regs t r bytes s j hj0 hj13 hav
  | read n =>
    show (read_transaction n s).1.registers j = s.registers j
    unfold read_transaction
    exact read_bytes_regs_ne13 n _ j hj13

theorem stepEv_distance (s : State) (e : Ev) :
    (stepEv s e).current_distance = s.current_distance ∨
      (100 ≤ (stepEv s e).current_distance ∧
        (stepEv s e).current_distance ≤ 2000) := by
  cases e with
  | check t r => exact check_measurement_distance_bounds t r s
  | write t r bytes => left; exact write_transaction_distance t r bytes s
  | read n =>
    left
    show (read_transaction n s).1.current_distance = s.current_distance
    unfold read_transaction
    exact (read_bytes_flags n _).2.2

theorem stepEv_distInv (s : State) (e : Ev) (h : distInv s) :
    distInv (stepEv s e) := by
  rcases stepEv_distance s e with h1 | h1
  · exact ⟨h1 ▸ h.1, h1 ▸ h.2⟩
  · exact h1

theorem runEvs_distInv (es : List Ev) : ∀ s : State,
    distInv s → distInv (runEvs s es) := by
  induction es with
  | nil => intro s h; exact h
  | cons e rest ih =>
    intro s h
    exact ih _ (stepEv_distInv s e h)

theorem initialState_distInv : distInv initialState := by
  constructor <;> norm_num [initialState]

theorem runEvs_regs (j : Nat)
    (hj0 : j ≠ 0x00) (hj13 : j ≠ 0x13) (hj1E : j ≠ 0x1E) (hj1F : j ≠ 0x1F)
    (es : List Ev) : ∀ s : State, (∀ e ∈ es, avoidsReg j e) →
    (runEvs s es).registers j = s.registers j := by
  induction es with
  | nil => intro s _; rfl
  | cons e rest ih =>
    intro s hav
    show (runEvs (stepEv s e) rest).registers j = s.registers j
    rw [ih _ (fun e2 h2 => hav e2 (List.mem_cons_of_mem e h2)),
      stepEv_regs s e j hj0 hj13 hj1E hj1F (hav e (List.mem_cons_self e rest))]

end Emu

/-- C1 (counterexample): the claim says every write of a value with bit 0
set to register 0x00 from the idle measurement state starts a measurement,
and that the transition occurs only from idle. The code compares the byte
to 0x01 exactly (vl53l0x_emu.c line 305), so 0x03 — bit 0 set — is stored
as ordinary data and starts nothing; and a second write of 0x01 while a
measurement is already in progress restarts it, re-recording the start
timestamp, because device_state was overwritten by the protocol states. -/
theorem start_measurement_bit0_counterexample :
    Nat.testBit 3 0 = true ∧
    Emu.initialState.measurement_in_progress = false ∧
    (Emu.write_transaction 0 0x00 [0x03]
        Emu.initialState).measurement_in_progress = false ∧
    (Emu.write_transaction 0 0x00 [0x03] Emu.initialState).registers 0x00
      = 0x03 ∧
    (Emu.write_transaction 0 0x00 [0x01]
        Emu.initialState).measurement_in_progress = true ∧
    (Emu.write_transaction 50 0x00 [0x01]
        (Emu.write_transaction 0 0x00 [0x01]
          Emu.initialState)).measurement_start_time = 50 := by
  decide

/-- C1 (amended): a controller write of exactly 0x01 to register index
0x00 — from any state, not only from the idle measurement state — sets the
measurement state to in-progress, records the write timestamp as the
start-timestamp, clears register 0x13 to 0x00 and auto-clears the start
strobe at register 0x00. -/
theorem start_measurement_write01_amended (s : Emu.State) (t : Nat) :
    (Emu.write_transaction t 0x00 [0x01] s).measurement_in_progress
        = true ∧
      (Emu.write_transaction t 0x00 [0x01] s).measurement_start_time = t ∧
      (Emu.write_transaction t 0x00 [0x01] s).registers 0x13 = 0x00 ∧
      (Emu.write_transaction t 0x00 [0x01] s).registers 0x00 = 0x00 :=
  have h := Emu.write_start_components t s
  ⟨h.1, h.2.1, h.2.2.1, h.2.2.2.1⟩

/-- C2: after a write of 0x01 to register 0x00 at time t0, a poll of
register 0x13 before the 75 ms conversion latency elapsed reads 0x00; the
first poll at least 75 ms after the write reads 0x07; the immediately
following poll reads 0x00. In general, whenever a read of register 0x13
returns 0x07, the post-read side effect clears register 0x13 to 0x00. -/
theorem data_ready_latch :
    (∀ (s : Emu.State) (t0 tp t1 t2 rp r1 r2 : Nat),
      tp - t0 < 75 → 75 ≤ t1 - t0 →
      (Emu.poll13 tp rp (Emu.write_transaction t0 0x00 [0x01] s)).2
          = 0x00 ∧
        (Emu.poll13 t1 r1
          (Emu.poll13 tp rp
            (Emu.write_transaction t0 0x00 [0x01] s)).1).2 = 0x07 ∧
        (Emu.poll13 t2 r2
          (Emu.poll13 t1 r1
            (Emu.poll13 tp rp
              (Emu.write_transaction t0 0x00 [0x01] s)).1).1).2 = 0x00) ∧
    (∀ s : Emu.State, s.current_register = 0x13 →
      (Emu.handle_read_byte s).2 = 0x07 →
      (Emu.handle_read_byte s).1.registers 0x13 = 0x00) := by
  constructor
  · intro s t0 tp t1 t2 rp r1 r2 hpre hlat
    unfold Emu.poll13
    set W := Emu.write_transaction t0 0x00 [0x01] s with hW
    have hcomp := Emu.write_start_components t0 s
    rw [← hW] at hcomp
    obtain ⟨hWm, hWt, hW13, -, -, -⟩ := hcomp
    have hA : Emu.check_measurement tp rp W = W :=
      Emu.check_measurement_not_elapsed tp rp W (by rw [hWt]; exact hpre)
    rw [hA]
    set M := (Emu.read_register tp 0x13 W).1 with hM
    have hMf := Emu.read_register_flags tp 0x13 W
    rw [← hM] at hMf
    have hM13 := Emu.read_register_regs_13 tp 0x13 W
    rw [← hM] at hM13
    simp only [Emu.REG_RESULT_INTERRUPT_STATUS] at hM13
    rw [hW13] at hM13
    norm_num at hM13
    have hMm : M.measurement_in_progress = true := hMf.1.trans hWm
    have hMt : M.measurement_start_time = t0 := hMf.2.1.trans hWt
    have hBe : 75 ≤ t1 - M.measurement_start_time := by
      rw [hMt]; exact hlat
    have hB13 := Emu.check_measurement_complete_regs t1 r1 M 0x13 hMm hBe
    norm_num at hB13
    have hBm := Emu.check_measurement_complete_flag t1 r1 M hMm hBe
    refine ⟨?_, ?_, ?_⟩
    · rw [Emu.read_register_val]
      norm_num
      exact hW13
    · rw [Emu.read_register_val]
      norm_num
      exact hB13
    · set B := Emu.check_measurement t1 r1 M with hB
      set N := (Emu.read_register t1 0x13 B).1 with hN
      have hNf := Emu.read_register_flags t1 0x13 B
      rw [← hN] at hNf
      have hN13 := Emu.read_register_regs_13 t1 0x13 B
      rw [← hN] at hN13
      simp only [Emu.REG_RESULT_INTERRUPT_STATUS] at hN13
      rw [hB13] at hN13
      norm_num at hN13
      have hNm : N.measurement_in_progress = false := hNf.1.trans hBm
      have hC : Emu.check_measurement t2 r2 N = N :=
        Emu.check_measurement_idle t2 r2 N hNm
      rw [hC, Emu.read_register_val]
      norm_num
      exact hN13
  · intro s h13 hv
    have h := Emu.handle_read_byte_regs_13 s
    simp only [Emu.REG_RESULT_INTERRUPT_STATUS] at h
    have hval : s.registers 0x13 = 0x07 := by
      rw [← h13]
      exact hv
    rw [h, if_pos ⟨h13, hval⟩]

/-- C2 witness: the concrete scenario from initial state, write at 0 ms,
early poll at 0 ms, data-ready polls at 75 ms and 76 ms; and a concrete
state whose 0x13 read returns 0x07 and self-clears. -/
theorem data_ready_latch_witness :
    ((0 : Nat) - 0 < 75 ∧ 75 ≤ 75 - 0) ∧
    ((Emu.poll13 0 0
        (Emu.write_transaction 0 0x00 [0x01] Emu.initialState)).2 = 0x00 ∧
      (Emu.poll13 75 0
        (Emu.poll13 0 0
          (Emu.write_transaction 0 0x00 [0x01]
            Emu.initialState)).1).2 = 0x07 ∧
      (Emu.poll13 76 0
        (Emu.poll13 75 0
          (Emu.poll13 0 0
            (Emu.write_transaction 0 0x00 [0x01]
              Emu.initialState)).1).1).2 = 0x00) :=
  ⟨⟨by norm_num, by norm_num⟩,
    data_ready_latch.1 Emu.initialState 0 0 75 76 0 0 0 (by norm_num)
      (by norm_num)⟩

/-- C3: for any register index outside the special set, a write of (i, v)
followed by a pointer write of i and a one-byte read returns v. -/
theorem register_round_trip (s : Emu.State) (t t2 i v : Nat)
    (hi : i < 256) (hv : v < 256) (h0 : i ≠ 0x00) (h13 : i ≠ 0x13)
    (h14 : i ≠ 0x14) (h1E : i ≠ 0x1E) (h1F : i ≠ 0x1F) :
    (Emu.read_register t2 i (Emu.write_transaction t i [v] s)).2 = v := by
  rw [Emu.read_register_val]
  rw [Emu.write_transaction_single_regs t i v s
    (by rw [Nat.mod_eq_of_lt hi]; exact fun hc => h0 hc.1)]
  simp [Emu.upd]

/-- C4 (counterexample): the claim says registers 0xC0 and 0xC2 are never
changed by any operation and reads of them return 0xEE and 0x10 regardless
of preceding controller writes. The responder stores controller writes to
0xC0 like any scratch register (vl53l0x_emu.c line 312), so after a write
of (0xC0, 0x55) a read of 0xC0 returns 0x55, not 0xEE. -/
theorem id_register_overwrite_counterexample :
    (Emu.write_transaction 0 0xC0 [0x55] Emu.initialState).registers 0xC0
        = 0x55 ∧
      (Emu.read_register 1 0xC0
        (Emu.write_transaction 0 0xC0 [0x55] Emu.initialState)).2 = 0x55 ∧
      (0x55 : Nat) ≠ 0xEE := by
  decide

/-- C4 (amended): registers 0xC0 and 0xC2 are initialised to 0xEE and 0x10
and are never changed by the emulator itself — background ticks, reads,
and any write transaction whose pointer window avoids the two indices
leave them intact, and a controller read then returns 0xEE resp. 0x10. A
controller write that targets them, however, does overwrite them. -/
theorem id_registers_stable_amended (es : List Emu.Ev) (t1 t2 : Nat)
    (hC0 : ∀ e ∈ es, Emu.avoidsReg 0xC0 e)
    (hC2 : ∀ e ∈ es, Emu.avoidsReg 0xC2 e) :
    (Emu.runEvs Emu.initialState es).registers 0xC0 = 0xEE ∧
      (Emu.runEvs Emu.initialState es).registers 0xC2 = 0x10 ∧
      (Emu.read_register t1 0xC0 (Emu.runEvs Emu.initialState es)).2
        = 0xEE ∧
      (Emu.read_register t2 0xC2 (Emu.runEvs Emu.initialState es)).2
        = 0x10 := by
  have hA := Emu.runEvs_regs 0xC0 (by norm_num) (by norm_num) (by norm_num)
    (by norm_num) es Emu.initialState hC0
  have hB := Emu.runEvs_regs 0xC2 (by norm_num) (by norm_num) (by norm_num)
    (by norm_num) es Emu.initialState hC2
  have hiA : Emu.initialState.registers 0xC0 = 0xEE := by decide
  have hiB : Emu.initialState.registers 0xC2 = 0x10 := by decide
  refine ⟨hA.trans hiA, hB.trans hiB, ?_, ?_⟩
  · rw [Emu.read_register_val]
    norm_num
    exact hA.trans hiA
  · rw [Emu.read_register_val]
    norm_num
    exact hB.trans hiB

/-- C4 witness: a run with a tick, a scratch write and a read, none
targeting the identification registers. -/
theorem id_registers_stable_amended_witness :
    ((∀ e ∈ [Emu.Ev.check 0 0, Emu.Ev.write 0 0x42 [0xA5], Emu.Ev.read 2],
        Emu.avoidsReg 0xC0 e) ∧
      (∀ e ∈ [Emu.Ev.check 0 0, Emu.Ev.write 0 0x42 [0xA5], Emu.Ev.read 2],
        Emu.avoidsReg 0xC2 e)) ∧
    (Emu.runEvs Emu.initialState
        [Emu.Ev.check 0 0, Emu.Ev.write 0 0x42 [0xA5],
          Emu.Ev.read 2]).registers 0xC0 = 0xEE :=
  ⟨⟨by decide, by decide⟩,
    (id_registers_stable_amended
      [Emu.Ev.check 0 0, Emu.Ev.write 0 0x42 [0xA5], Emu.Ev.read 2] 0 0
      (by decide) (by decide)).1⟩

set_option maxRecDepth 400000 in
/-- C5 (counterexample): the claim quantifies over every count n ≥ 1, with
the returned bytes described by the register file as it stood at the start
of the read. After a completed measurement register 0x13 holds 0x07; a
read of 257 bytes whose pointer starts at 0x13 wraps around and visits
0x13 twice: the first visit returns 0x07 and self-clears the register, so
byte 256 returns 0x00 while the claim predicts
register[(0x13 + 256) mod 256] = 0x07. -/
theorem read_wraparound_counterexample :
    (Emu.check_measurement 75 0 (Emu.write_transaction 0 0x00 [0x01]
        Emu.initialState)).registers ((0x13 + 256) % 256) = 0x07 ∧
      ((Emu.read_transaction 257 (Emu.write_transaction 100 0x13 []
        (Emu.check_measurement 75 0 (Emu.write_transaction 0 0x00 [0x01]
          Emu.initialState)))).2.getD 0 999) = 0x07 ∧
      ((Emu.read_transaction 257 (Emu.write_transaction 100 0x13 []
        (Emu.check_measurement 75 0 (Emu.write_transaction 0 0x00 [0x01]
          Emu.initialState)))).2.getD 256 999) = 0x00 := by
  refine ⟨by decide, by decide, by decide⟩

/-- C5 (amended): for every start pointer p and count n ≤ 256 (so that no
register index is visited twice), reading n bytes after a pointer-setting
write of p returns register[p], register[(p+1) mod 256], ...,
register[(p+n-1) mod 256], and the register pointer advances exactly once
per data byte, wrapping at 256 — after the read it is (p+n) mod 256, and
after a write of any byte list it is (p + length) mod 256. -/
theorem read_auto_increment_amended (s : Emu.State) (t p n : Nat)
    (bytes : List Nat) (hp : p < 256) (hn : n ≤ 256) :
    (Emu.read_transaction n (Emu.write_transaction t p [] s)).2 =
      (List.range n).map (fun k => s.registers ((p + k) % 256)) ∧
    (Emu.read_transaction n
        (Emu.write_transaction t p [] s)).1.current_register
      = (p + n) % 256 ∧
    (Emu.write_transaction t p bytes s).current_register
      = (p + bytes.length) % 256 := by
  have hcur : ({ s with
      device_state := Emu.STATE_ADDR_MATCHED
      current_register := p % 256 } : Emu.State).current_register < 256 := by
    show p % 256 < 256
    exact Nat.mod_lt _ (by norm_num)
  obtain ⟨ho, hq⟩ := Emu.read_bytes_spec n
    ({ s with
      device_state := Emu.STATE_ADDR_MATCHED
      current_register := p % 256 } : Emu.State) hcur hn
  refine ⟨?_, ?_, Emu.write_transaction_pointer t p bytes s⟩
  · show (Emu.read_bytes n ({ s with
        device_state := Emu.STATE_ADDR_MATCHED
        current_register := p % 256 } : Emu.State)).2 = _
    rw [ho]
    apply List.map_congr_left
    intro k _
    show s.registers ((p % 256 + k) % 256) = s.registers ((p + k) % 256)
    rw [Nat.mod_add_mod]
  · show (Emu.read_bytes n ({ s with
        device_state := Emu.STATE_ADDR_MATCHED
        current_register := p % 256 } : Emu.State)).1.current_register = _
    rw [hq]
    show (p % 256 + n) % 256 = _
    rw [Nat.mod_add_mod]

/-- C5 witness: a three-byte read starting at the model-identifier
register, the multi-byte auto-increment scenario of the spec. -/
theorem read_auto_increment_amended_witness :
    ((0xC0 : Nat) < 256 ∧ (3 : Nat) ≤ 256) ∧
    (Emu.read_transaction 3
        (Emu.write_transaction 0 0xC0 [] Emu.initialState)).2 =
      (List.range 3).map
        (fun k => Emu.initialState.registers ((0xC0 + k) % 256)) :=
  ⟨⟨by norm_num, by norm_num⟩,
    (read_auto_increment_amended Emu.initialState 0 0xC0 3 [] (by norm_num)
      (by norm_num)).1⟩

/-- C6: the simulated distance is bounded into [100, 2000] mm: whichever
event sequence ran before, when a background tick completes a measurement
the 16-bit big-endian value stored at 0x1E/0x1F equals the distance of the
completed measurement, lies in [100, 2000], and the distance is then
updated by adding a step in [-50, +50] and clamping into [100, 2000]. -/
theorem distance_bounds (es : List Emu.Ev) (t r : Nat)
    (hm : (Emu.runEvs Emu.initialState es).measurement_in_progress = true)
    (he : 75 ≤ t -
      (Emu.runEvs Emu.initialState es).measurement_start_time) :
    100 ≤ Emu.dist16
        (Emu.check_measurement t r (Emu.runEvs Emu.initialState es)) ∧
      Emu.dist16
        (Emu.check_measurement t r (Emu.runEvs Emu.initialState es))
        ≤ 2000 ∧
      Emu.dist16
          (Emu.check_measurement t r (Emu.runEvs Emu.initialState es))
        = (Emu.runEvs Emu.initialState es).current_distance ∧
      ∃ c : Int, -50 ≤ c ∧ c ≤ 50 ∧
        ((Emu.check_measurement t r
            (Emu.runEvs Emu.initialState es)).current_distance : Int)
          = max 100 (min 2000
            (((Emu.runEvs Emu.initialState es).current_distance : Int)
              + c)) := by
  set S := Emu.runEvs Emu.initialState es with hS
  have hinv : Emu.distInv S :=
    Emu.runEvs_distInv es Emu.initialState Emu.initialState_distInv
  have h1E := Emu.check_measurement_complete_regs t r S 0x1E hm he
  have h1F := Emu.check_measurement_complete_regs t r S 0x1F hm he
  norm_num at h1E h1F
  have hd : Emu.dist16 (Emu.check_measurement t r S)
      = S.current_distance := by
    unfold Emu.dist16
    rw [h1E, h1F]
    have h2000 := hinv.2
    omega
  refine ⟨?_, ?_, hd, ?_⟩
  · rw [hd]; exact hinv.1
  · rw [hd]; exact hinv.2
  · refine ⟨((r % 101 : Nat) : Int) - 50, by omega, by omega, ?_⟩
    exact Emu.check_measurement_complete_distance t r S hm he

/-- C6 witness: a single start write, then a completing tick at 80 ms. -/
theorem distance_bounds_witness :
    ((Emu.runEvs Emu.initialState
        [Emu.Ev.write 0 0x00 [0x01]]).measurement_in_progress = true ∧
      75 ≤ 80 - (Emu.runEvs Emu.initialState
        [Emu.Ev.write 0 0x00 [0x01]]).measurement_start_time) ∧
    100 ≤ Emu.dist16 (Emu.check_measurement 80 0
        (Emu.runEvs Emu.initialState [Emu.Ev.write 0 0x00 [0x01]])) ∧
      Emu.dist16 (Emu.check_measurement 80 0
        (Emu.runEvs Emu.initialState [Emu.Ev.write 0 0x00 [0x01]]))
        ≤ 2000 :=
  ⟨⟨by decide, by decide⟩,
    (distance_bounds [Emu.Ev.write 0 0x00 [0x01]] 80 0 (by decide)
        (by decide)).1,
    (distance_bounds [Emu.Ev.write 0 0x00 [0x01]] 80 0 (by decide)
        (by decide)).2.1⟩

/-- C3 witness: the scratch-register scenario of the spec, index 0x42
value 0xA5. -/
theorem register_round_trip_witness :
    ((0x42 : Nat) < 256 ∧ (0xA5 : Nat) < 256 ∧ (0x42 : Nat) ≠ 0x00 ∧
      (0x42 : Nat) ≠ 0x13 ∧ (0x42 : Nat) ≠ 0x14 ∧ (0x42 : Nat) ≠ 0x1E ∧
      (0x42 : Nat) ≠ 0x1F) ∧
    (Emu.read_register 1 0x42
      (Emu.write_transaction 0 0x42 [0xA5] Emu.initialState)).2 = 0xA5 :=
  ⟨⟨by norm_num, by norm_num, by norm_num, by norm_num, by norm_num,
    by norm_num, by norm_num⟩,
    register_round_trip Emu.initialState 0 1 0x42 0xA5 (by norm_num)
      (by norm_num) (by norm_num) (by norm_num) (by norm_num) (by norm_num)
      (by norm_num)⟩
/-- C7 (counterexample): the claim says a NACK at data byte i yields a
result identifying the byte position, distinct from the no-response result
of an address NACK. Both variants of i2c_master_write return the same -1
in both situations (soft_i2c.c lines 461 and 468): with an oracle that
NACKs the address byte and one that ACKs the address but NACKs the first
data byte, the returned codes coincide. -/
theorem master_write_nack_code_counterexample :
    SoftI2C.i2c_master_write (fun _ => true) [0x42] = -1 ∧
      SoftI2C.i2c_master_write (fun k => decide (k = 1)) [0x42] = -1 := by
  decide

/-- C7 (amended): the controller write transmits the address byte and then
the data bytes in submission order, stopping after the first NACKed byte;
it succeeds (result 0) exactly when the address and every data byte are
acknowledged, and on any NACK — at the address or at any data byte — it
emits STOP and returns the single failure code -1, without reporting the
failing byte position. -/
theorem master_write_result_amended (acks : Nat → Bool) (addr : Nat)
    (data : List Nat) :
    (SoftI2C.i2c_master_write acks data = 0 ∨
        SoftI2C.i2c_master_write acks data = -1) ∧
      (SoftI2C.i2c_master_write acks data = 0 ↔
        (acks 0 = false ∧ ∀ i, i < data.length → acks (i + 1) = false)) ∧
      ∃ m, SoftI2C.masterWriteSent acks addr data
        = (addr :: data).take (m + 1) :=
  ⟨SoftI2C.i2c_master_write_cases acks data,
    SoftI2C.i2c_master_write_eq_zero acks data,
    SoftI2C.masterWriteSent_take acks addr data⟩

/-- C7 witness: an all-ACK oracle on a two-byte write returns success. -/
theorem master_write_result_amended_witness :
    SoftI2C.i2c_master_write (fun _ => false) [0x00, 0x01] = 0 ∨
      SoftI2C.i2c_master_write (fun _ => false) [0x00, 0x01] = -1 :=
  (master_write_result_amended (fun _ => false) 0x29 [0x00, 0x01]).1

/-- C8 (counterexample): the claim says neither peer ever drives a line to
a driven-high state. The soft_i2c.c controller requests both lines as
push-pull outputs with initial level 1 at initialization (lines 73-83) and
actively sets lines to level 1 during START (line 182-183): both are
driven-high operations. -/
theorem driven_high_counterexample :
    SoftI2C.drivesHigh
        (SoftI2C.GpioOp.requestOutput SoftI2C.LineKind.sda 1) = true ∧
      SoftI2C.GpioOp.requestOutput SoftI2C.LineKind.sda 1
        ∈ SoftI2C.i2c_init_ops ∧
      SoftI2C.GpioOp.setValue SoftI2C.LineKind.sda 1
        ∈ SoftI2C.i2c_start_ops ∧
      SoftI2C.drivesHigh
        (SoftI2C.GpioOp.setValue SoftI2C.LineKind.sda 1) = true := by
  decide

/-- C8 (amended): the responder emulator obeys the open-drain discipline —
every data-line reconfiguration issued by its protocol loop is either a
release to input-with-pull-up or a drive to low, never a driven high — but
the soft_i2c controller does drive lines high: its initialization, START
and STOP sequences all contain driven-high operations. -/
theorem line_discipline_amended :
    SoftI2C.emu_slave_loop_ops.all
        (fun op => !SoftI2C.drivesHigh op) = true ∧
      SoftI2C.emu_slave_loop_ops.all
        (fun op =>
          decide (op = SoftI2C.set_input_pullup SoftI2C.LineKind.sda) ||
            decide (op = SoftI2C.set_output_low SoftI2C.LineKind.sda))
        = true ∧
      SoftI2C.i2c_init_ops.any SoftI2C.drivesHigh = true ∧
      SoftI2C.i2c_start_ops.any SoftI2C.drivesHigh = true ∧
      SoftI2C.i2c_stop_ops.any SoftI2C.drivesHigh = true := by
  decide

/-- C9 (counterexample): the claim says the multi-attempt acknowledgement
rule never reports as acknowledged a transfer that a strict single sample
during the ACK high phase would reject. master_read_ack accepts if any of
its up-to-10 samples reads low: on a trace that is high at every sampling
instant except attempt 1, a strict single sample (at attempt 0, 5 or 9,
say) reads high — a strict NACK — yet the code reports ACK (returns 0). -/
theorem ack_substitution_counterexample :
    (fun k => decide (k ≠ 1)) 0 = true ∧
      (fun k => decide (k ≠ 1)) 5 = true ∧
      (fun k => decide (k ≠ 1)) 9 = true ∧
      SoftI2C.master_read_ack (fun k => decide (k ≠ 1)) = 0 := by
  decide

/-- C9 (amended): when the data line holds one constant level throughout
the ACK slot — as it does for a conforming responder that either holds the
acknowledgement low for the whole slot or leaves the line released — the
multi-attempt rule agrees with the strict single sample: the transfer is
reported acknowledged exactly when the line is low. On a fluctuating
trace the rule is lenient and can report ACK although a strict single
sample reads high. -/
theorem ack_sampling_amended (line : Nat → Bool) (b : Bool)
    (h : ∀ k, k < 10 → line k = b) :
    SoftI2C.master_read_ack line = 0 ↔ b = false := by
  rw [SoftI2C.master_read_ack_const line b h]
  cases b <;> simp

/-- C9 witness: the constant-low trace is reported as acknowledged. -/
theorem ack_sampling_amended_witness :
    (∀ k, k < 10 → (fun _ => false : Nat → Bool) k = false) ∧
      SoftI2C.master_read_ack (fun _ => false) = 0 :=
  ⟨fun _ _ => rfl,
    (ack_sampling_amended (fun _ => false) false (fun _ _ => rfl)).mpr rfl⟩

/-- C10: the controller multi-byte read stores only into buffer indices
0 .. n-1, and only under the precondition n ≥ 1 is every store in bounds:
for n ≥ 1 each written index i satisfies 0 ≤ i < n and every index in
[0, n-1] is written, while for n = 0 the final store targets index -1,
outside any buffer. -/
theorem master_read_store_indices (n : Int) :
    (1 ≤ n → ∀ i ∈ SoftI2C.i2c_master_read_stores n, 0 ≤ i ∧ i < n) ∧
      (1 ≤ n → ∀ j : Int, 0 ≤ j → j < n →
        j ∈ SoftI2C.i2c_master_read_stores n) ∧
      (-1 : Int) ∈ SoftI2C.i2c_master_read_stores 0 := by
  refine ⟨?_, ?_, by decide⟩
  · intro hn i hi
    unfold SoftI2C.i2c_master_read_stores at hi
    simp only [List.mem_append, List.mem_map, List.mem_range,
      List.mem_singleton] at hi
    rcases hi with ⟨k, hk, rfl⟩ | rfl <;> omega
  · intro hn j hj0 hjn
    unfold SoftI2C.i2c_master_read_stores
    simp only [List.mem_append, List.mem_map, List.mem_range,
      List.mem_singleton]
    by_cases hj : j < n - 1
    · exact Or.inl ⟨j.toNat, by omega, by omega⟩
    · exact Or.inr (by omega)

/-- C10 witness: a three-byte read writes exactly the indices 0, 1, 2. -/
theorem master_read_store_indices_witness :
    ((1 : Int) ≤ 3) ∧ (0 ≤ (2 : Int) ∧ (2 : Int) < 3) :=
  ⟨by norm_num,
    (master_read_store_indices 3).1 (by norm_num) 2 (by decide)⟩
